import Mathlib

/-!
# Verification of the `ecs` archetype-based entity component system

A shallow embedding of the core of the `ilumary/ecs` C++20 repository:
the generational entity pool (`entity.hpp`), the dynamic bitset and
component sets (`dynamic_bitset.hpp`, `component.hpp`), the archetype
layout / capacity computation (`archetype.hpp`), the memory-block
swap-erase machinery (`mem_block.hpp`) and the registry façade
(`registry.hpp`).  Machine integers are modelled as `Nat` with explicit
`% 2^32` where unsigned wrap-around matters; C++ exceptions and
undefined behaviour (dereferencing an empty `std::optional`) are
modelled as explicit error values.
-/

namespace Ecs

/-- `2^32`, the modulus of the C++ `uint32_t` counters
(`entity_id_t`, `generation_id_t`). -/
def u32 : Nat := 2 ^ 32

/-- An entity handle: a pair of a 32-bit id and a 32-bit generation
(`ecs::entity`). -/
structure Entity where
  id : Nat
  gen : Nat
deriving DecidableEq, Repr

/-- State of `ecs::entity_pool`: the `next_id_` counter, the
`generations_` vector and the `freed_ids_` stack.  The stack's top is
the list head (C++ pushes/pops at the back; LIFO order is what
matters). -/
structure EntityPool where
  nextId : Nat
  generations : List Nat
  freedIds : List Nat
deriving DecidableEq, Repr

/-- `entity_pool::create`: pop a freed id and pair it with its current
generation, or mint a fresh id (with generation 0) and append a fresh
generation counter.  `next_id_++` wraps at `2^32` (`entity_id_t` is
`uint32_t`). -/
def poolCreate (p : EntityPool) : Entity × EntityPool :=
  match p.freedIds with
  | i :: rest => (⟨i, p.generations.getD i 0⟩, { p with freedIds := rest })
  | [] =>
    (⟨p.nextId, 0⟩,
      { p with nextId := (p.nextId + 1) % u32,
               generations := p.generations ++ [0] })

/-- `entity_pool::alive`: a handle is alive iff its id is in range and
its generation matches the stored one. -/
def poolAlive (p : EntityPool) (e : Entity) : Bool :=
  if e.id < p.generations.length then p.generations.getD e.id 0 == e.gen
  else false

/-- `entity_pool::recycle`: no-op on a dead handle; otherwise bump the
stored generation (wrapping `uint32_t` increment) and push the id onto
the free stack. -/
def poolRecycle (p : EntityPool) (e : Entity) : EntityPool :=
  if poolAlive p e then
    { p with
      generations := p.generations.set e.id ((p.generations.getD e.id 0 + 1) % u32),
      freedIds := e.id :: p.freedIds }
  else p

/-- An operation on the entity pool. -/
inductive PoolOp where
  | create
  | recycle (e : Entity)
deriving DecidableEq, Repr

/-- Run a list of pool operations, collecting (in order) the handles
returned by the `create` calls. -/
def runOps (p : EntityPool) : List PoolOp → EntityPool × List Entity
  | [] => (p, [])
  | PoolOp.create :: ops =>
    let c := poolCreate p
    let r := runOps c.2 ops
    (r.1, c.1 :: r.2)
  | PoolOp.recycle e :: ops => runOps (poolRecycle p e) ops

/-- "No generation counter overflows" along a run: whenever a
`recycle` actually fires, the incremented generation does not wrap. -/
def noGenOverflowRun (p : EntityPool) : List PoolOp → Bool
  | [] => true
  | PoolOp.create :: ops => noGenOverflowRun (poolCreate p).2 ops
  | PoolOp.recycle e :: ops =>
    (!poolAlive p e || decide (p.generations.getD e.id 0 + 1 < u32)) &&
      noGenOverflowRun (poolRecycle p e) ops

/-- "No counter overflows" along a run: additionally to
`noGenOverflowRun`, no fresh `create` wraps the `next_id_` counter. -/
def noOverflowRun (p : EntityPool) : List PoolOp → Bool
  | [] => true
  | PoolOp.create :: ops =>
    (!(p.freedIds.isEmpty) || decide (p.nextId + 1 < u32)) &&
      noOverflowRun (poolCreate p).2 ops
  | PoolOp.recycle e :: ops =>
    (!poolAlive p e || decide (p.generations.getD e.id 0 + 1 < u32)) &&
      noOverflowRun (poolRecycle p e) ops

/-! ## Dynamic bitset (`dynamic_bitset.hpp`) and component sets -/

/-- Word size of the bitset's default storage type (`std::uint64_t`). -/
def wordBits : Nat := 64

/-- All 64 bits set: the value of `~T{0}` for `T = uint64_t`. -/
def u64Mask : Nat := 2 ^ 64 - 1

/-- `ecs::dynamic_bitset<>`: a vector of 64-bit words.  Words are kept
below `2^64` by construction (the operations only set or clear single
bits below position 64). -/
structure DynBitset where
  blocks : List Nat
deriving DecidableEq, Repr

/-- A default-constructed `dynamic_bitset` resizes its word vector to
one (zero) word. -/
def bitsetDefault : DynBitset := ⟨[0]⟩

/-- `dynamic_bitset::block_and_bit`. -/
def blockAndBit (pos : Nat) : Nat × Nat := (pos / wordBits, pos % wordBits)

/-- Grow the word vector with zero words so that index `bi` exists —
the `blocks_.resize(block_index + 1)` step of `dynamic_bitset::set`. -/
def growWords (l : List Nat) (bi : Nat) : List Nat :=
  if l.length ≤ bi then l ++ List.replicate (bi + 1 - l.length) 0 else l

/-- `dynamic_bitset::test`: read the word if the index is in range,
otherwise report `false` without touching the vector. -/
def btest (s : DynBitset) (pos : Nat) : Bool :=
  if (blockAndBit pos).1 < s.blocks.length then
    (s.blocks.getD (blockAndBit pos).1 0) &&& (1 <<< (blockAndBit pos).2) != 0
  else false

/-- The word-vector update of `dynamic_bitset::set(pos, true)`: grow
if needed, then OR the bit into its word. -/
def setWord (l : List Nat) (pos : Nat) : List Nat :=
  (growWords l (blockAndBit pos).1).set (blockAndBit pos).1
    ((growWords l (blockAndBit pos).1).getD (blockAndBit pos).1 0 |||
      (1 <<< (blockAndBit pos).2))

/-- `dynamic_bitset::set(pos, true)`. -/
def bsetTrue (s : DynBitset) (pos : Nat) : DynBitset := ⟨setWord s.blocks pos⟩

/-- The index the trimming `while` loop of `dynamic_bitset::set(pos,
false)` stops at: the largest index holding a non-zero word, or 0 when
every word is zero. -/
def lastNonzeroIdx (l : List Nat) : Nat :=
  match l.reverse.findIdx? (fun w => w != 0) with
  | some j => l.length - 1 - j
  | none => 0

/-- The word-vector update of `dynamic_bitset::set(pos, false)` before
trimming: grow if needed, then AND the word with the complement mask
(`~(1 << bit)` on `uint64_t`). -/
def clearWord (l : List Nat) (pos : Nat) : List Nat :=
  (growWords l (blockAndBit pos).1).set (blockAndBit pos).1
    ((growWords l (blockAndBit pos).1).getD (blockAndBit pos).1 0 &&&
      (u64Mask ^^^ (1 <<< (blockAndBit pos).2)))

/-- `dynamic_bitset::set(pos, false)`: clear the bit, then trim
trailing zero words down to `lastNonzeroIdx + 1`. -/
def bsetFalse (s : DynBitset) (pos : Nat) : DynBitset :=
  ⟨(clearWord s.blocks pos).take (lastNonzeroIdx (clearWord s.blocks pos) + 1)⟩

/-- `std::hash<dynamic_bitset>`: XOR-fold of the words. -/
def bhash (s : DynBitset) : Nat := s.blocks.foldl (fun h w => h ^^^ w) 0

/-- An operation on a `component_set` (`component.hpp`):
`insert(id)` is `bitset_.set(id)`, `erase(id)` is
`bitset_.set(id, false)`. -/
inductive CsOp where
  | insert (id : Nat)
  | erase (id : Nat)
deriving DecidableEq, Repr

/-- Apply a sequence of `component_set` operations. -/
def csApply (s : DynBitset) : List CsOp → DynBitset
  | [] => s
  | CsOp.insert id :: ops => csApply (bsetTrue s id) ops
  | CsOp.erase id :: ops => csApply (bsetFalse s id) ops

/-- The component-set key `archetype_registry::ensure_archetype` builds:
`tmp_component_set_.clear()` (which empties the word vector) followed
by one `insert` per component type. -/
def buildKey (ids : List Nat) : DynBitset := ids.foldl bsetTrue ⟨[]⟩

/-- Linear lookup in the archetype map keyed by `component_set`
equality (`operator==` compares the word vectors element-wise,
lengths included, exactly like structural list equality). -/
def assocFind : List (DynBitset × Nat) → DynBitset → Option Nat
  | [], _ => none
  | (k, v) :: rest, key => if k = key then some v else assocFind rest key

/-- `archetype_registry::ensure_archetype`, abstracting an archetype to
the index under which the registry stores it: build the key, return the
stored archetype on a hit, otherwise store (and return) a new one. -/
def ensureArchetype (reg : List (DynBitset × Nat)) (fresh : Nat)
    (ids : List Nat) : Nat × List (DynBitset × Nat) :=
  let key := buildKey ids
  match assocFind reg key with
  | some a => (a, reg)
  | none => (fresh, reg ++ [(key, fresh)])

/-! ## Component metadata, block layout and capacity (`archetype.hpp`) -/

/-- The `size`/`align` part of `ecs::meta_t` for one component type. -/
structure Meta where
  size : Nat
  align : Nat
deriving DecidableEq, Repr

/-- `ecs::component_meta`: a component id paired with its type meta. -/
structure ComponentMeta where
  id : Nat
  meta : Meta
deriving DecidableEq, Repr

/-- `mem_block::mem_block_size` (16 KiB). -/
def memBlockSize : Nat := 16 * 1024

/-- `sizeof(ecs::entity)`: two `uint32_t` fields. -/
def entitySize : Nat := 8

/-- `alignof(ecs::entity)` = `alignof(uint32_t)`; also
`mem_block::alloc_alignment`. -/
def entityAlign : Nat := 4

/-- The `component_meta` of the entity pseudo-component
(`component_meta::of<entity>()`), with an arbitrary fixed id distinct
from user component ids used in the concrete scenarios. -/
def entityCM : ComponentMeta := ⟨0, ⟨entitySize, entityAlign⟩⟩

/-- Modelled from the spec: the repository's `mod_2n` utility (called
by `archetype::add_component_section` and
`archetype::aligned_components_size`) is not among the provided
sources; per spec §4.4.1 — "round the running end up to that
component's align then add its size" — it returns the padding that
advances `x` to the next multiple of `align`. -/
def mod2n (x align : Nat) : Nat := (align - x % align) % align

/-- The spec's `align_up` (§4.4.2), written independently of `mod2n`
as "round up to the next multiple": `⌈x / a⌉ * a` for `a ≥ 1`. -/
def alignUp (x align : Nat) : Nat := ((x + align - 1) / align) * align

/-- The `add_elements` lambda of `archetype::aligned_components_size`:
advance the running end by the `mod_2n` padding for the meta's align,
then by its size.  (The `memcpy` of `end` into `t_end` in the source
is a plain value copy.) -/
def addElements (e : Nat) (m : Meta) : Nat := e + mod2n e m.align + m.size

/-- `archetype::aligned_components_size`: starting from
`alloc_alignment`, run `add_elements` over the entity meta and then
the components in meta-set order; return `end - begin`. -/
def alignedComponentsSize (metas : List Meta) : Nat :=
  (metas.foldl addElements (addElements entityAlign ⟨entitySize, entityAlign⟩))
    - entityAlign

/-- `archetype::packed_components_size`: `sizeof(entity)` plus the
unaligned sum of the component sizes. -/
def packedComponentsSize (metas : List Meta) : Nat :=
  metas.foldl (fun r m => r + m.size) entitySize

/-- Error signals of the modelled core (C++ exceptions / UB). -/
inductive EcsError where
  | entityNotFound
  | capacityExceeded
  | locationMissing
  | derefEmptyOptional
deriving DecidableEq, Repr

/-- `archetype::get_max_size`: throw `capacity-exceeded` when one
aligned slab does not fit a block, otherwise
`remaining / packed + 1`. -/
def getMaxSize (metas : List Meta) : Except EcsError Nat :=
  let aligned := alignedComponentsSize metas
  if aligned > memBlockSize then Except.error EcsError.capacityExceeded
  else Except.ok ((memBlockSize - aligned) / packedComponentsSize metas + 1)

/-- The claim's one-section step: round the running end up to the
meta's align with `alignUp`, then add its size. -/
def specAlignStep (e : Nat) (m : Meta) : Nat := alignUp e m.align + m.size

/-- The claim's formulation of the aligned one-slot footprint: start at
`alloc_alignment`, round the running end up to each align (entity
first, then each component), add each size; measure the distance from
the start. -/
def specOneSlotFootprint (metas : List Meta) : Nat :=
  (metas.foldl specAlignStep (specAlignStep entityAlign ⟨entitySize, entityAlign⟩))
    - entityAlign

/-- Sum of the raw component sizes. -/
def sumSizes (metas : List Meta) : Nat := (metas.map Meta.size).sum

/-- `archetype::add_component_section`: record `(id ↦ offset)` for the
section — with the offset value *as it comes in*, before any alignment
adjustment — then advance the running end by the padding plus
`max_size * size`.  State is (layout so far, running end). -/
def addComponentSection (maxSize : Nat) (st : List (Nat × Nat) × Nat)
    (cm : ComponentMeta) : List (Nat × Nat) × Nat :=
  let sizeInBytes := maxSize * cm.meta.size
  let align := cm.meta.align
  (st.1 ++ [(cm.id, st.2)], st.2 + mod2n st.2 align + sizeInBytes)

/-- `archetype::init_component_sections`: the entity section first
(starting at offset 0), then each component in meta-set order. -/
def initComponentSections (maxSize : Nat) (metas : List ComponentMeta) :
    List (Nat × Nat) :=
  (metas.foldl (addComponentSection maxSize)
    (addComponentSection maxSize ([], 0) entityCM)).1

/-- The archetype constructor's layout pipeline: compute `max_size`
from the metas, then build the shared layout map; returns
`(max_size, [(component id, recorded offset)])`. -/
def archetypeLayout (metas : List ComponentMeta) :
    Except EcsError (Nat × List (Nat × Nat)) :=
  match getMaxSize (metas.map ComponentMeta.meta) with
  | Except.error e => Except.error e
  | Except.ok maxSize => Except.ok (maxSize, initComponentSections maxSize metas)

/-! ## Memory blocks, archetypes and the registry façade
(`mem_block.hpp`, `archetype.hpp`, `registry.hpp`)

A memory block is modelled at the value level: its observable content
is the packed sequence of rows `(entity, component values)` for the
live slots `[0, n)`; `rows.length` is the block's
`number_of_elements_`.  Component values are abstracted to `Nat`
(one value per component section, in layout order); `move_assign` of
every section of a slot is then the copy of one row. -/

/-- One live slot of a memory block: the entity of the slot plus the
component values the SoA arrays hold at its index. -/
abbrev Row := Entity × List Nat

/-- `ecs::mem_block`: capacity and live rows. -/
structure MemBlock where
  maxSize : Nat
  rows : List Row
deriving DecidableEq, Repr

/-- `mem_block::delete_last_entity`: decrement the count, destroying
the last slot's values. -/
def MemBlock.deleteLast (b : MemBlock) : MemBlock :=
  ⟨b.maxSize, b.rows.dropLast⟩

/-- `mem_block::erase_and_fill(index, other)` for the case where
`other` is this same block (the C++ call aliases both references when
the erased location lies in the archetype's last block).  The
short-cut fires when `number_of_elements_ == 1 || index ==
number_of_elements_ - 1`; otherwise the last row is move-assigned over
row `index`, the moved entity is read, and the last slot is destroyed.
(The source asserts `index < number_of_elements_`; the `getLast?
= none` branch is unreachable under that precondition.) -/
def memBlockEraseFillSame (b : MemBlock) (index : Nat) :
    MemBlock × Option Entity :=
  if b.rows.length = 1 ∨ index = b.rows.length - 1 then
    (b.deleteLast, none)
  else
    match b.rows.getLast? with
    | none => (b, none)
    | some row => (⟨b.maxSize, (b.rows.set index row).dropLast⟩, some row.1)

/-- `mem_block::erase_and_fill(index, other)` for two distinct blocks:
same short-cut test on *this* block's count; otherwise move-assign
`other`'s last row into slot `index` of this block and destroy
`other`'s last slot.  (The source asserts `!other.empty()` before the
move; the `getLast? = none` branch is unreachable under that
precondition.) -/
def memBlockEraseFillDistinct (b : MemBlock) (index : Nat)
    (other : MemBlock) : MemBlock × MemBlock × Option Entity :=
  if b.rows.length = 1 ∨ index = b.rows.length - 1 then
    (b.deleteLast, other, none)
  else
    match other.rows.getLast? with
    | none => (b, other, none)
    | some row =>
      (⟨b.maxSize, b.rows.set index row⟩, other.deleteLast, some row.1)

/-- `ecs::archetype`: the per-block capacity and the block vector (the
constructor starts it with one empty block). -/
structure Archetype where
  maxSize : Nat
  blocks : List MemBlock
deriving DecidableEq, Repr

/-- A freshly constructed archetype: one empty block of the given
capacity. -/
def Archetype.fresh (maxSize : Nat) : Archetype :=
  ⟨maxSize, [⟨maxSize, []⟩]⟩

/-- `archetype::ensure_free_mem_block`: if the last block is full,
append a new empty block. -/
def Archetype.ensureFree (a : Archetype) : Archetype :=
  let mb := a.blocks.getLastD ⟨a.maxSize, []⟩
  if mb.rows.length = mb.maxSize then
    ⟨a.maxSize, a.blocks ++ [⟨a.maxSize, []⟩]⟩
  else a

/-- `archetype::emplace_back`: append the row into the (ensured-free)
last block and return `(block index, entry index)` of the new slot. -/
def Archetype.emplaceBack (a : Archetype) (e : Entity) (comps : List Nat) :
    Archetype × Nat × Nat :=
  let a' := a.ensureFree
  let bi := a'.blocks.length - 1
  let mb := a'.blocks.getLastD ⟨a'.maxSize, []⟩
  let ei := mb.rows.length
  (⟨a'.maxSize, a'.blocks.set bi ⟨mb.maxSize, mb.rows ++ [(e, comps)]⟩⟩, bi, ei)

/-- `archetype::erase_and_fill(loc)`: delegate to the block at
`loc.blockIdx` with the current last block as fill source (the same
object when `loc.blockIdx` is the last index), then pop the last block
if it became empty and more than one block remains. -/
def Archetype.eraseAndFill (a : Archetype) (blockIdx entryIdx : Nat) :
    Archetype × Option Entity :=
  let lastIdx := a.blocks.length - 1
  if blockIdx = lastIdx then
    let b := a.blocks.getD lastIdx ⟨a.maxSize, []⟩
    let r := memBlockEraseFillSame b entryIdx
    let blocks₁ := a.blocks.set lastIdx r.1
    let blocks₂ :=
      if (blocks₁.getLastD ⟨a.maxSize, []⟩).rows.length = 0 ∧ 1 < blocks₁.length
      then blocks₁.dropLast else blocks₁
    (⟨a.maxSize, blocks₂⟩, r.2)
  else
    let b := a.blocks.getD blockIdx ⟨a.maxSize, []⟩
    let c := a.blocks.getD lastIdx ⟨a.maxSize, []⟩
    let r := memBlockEraseFillDistinct b entryIdx c
    let blocks₁ := (a.blocks.set blockIdx r.1).set lastIdx r.2.1
    let blocks₂ :=
      if (blocks₁.getLastD ⟨a.maxSize, []⟩).rows.length = 0 ∧ 1 < blocks₁.length
      then blocks₁.dropLast else blocks₁
    (⟨a.maxSize, blocks₂⟩, r.2.2)

/-- The invariant of spec §3 / §8(5): in an archetype every block
except the last one is full. -/
def allButLastFull (a : Archetype) : Bool :=
  (List.range (a.blocks.length - 1)).all
    (fun i => (a.blocks.getD i ⟨a.maxSize, []⟩).rows.length == a.maxSize)

/-- `ecs::entity_location`, with the owning archetype abstracted to
its index in the registry's archetype storage. -/
structure Location where
  archIdx : Nat
  blockIdx : Nat
  entryIdx : Nat
deriving DecidableEq, Repr

/-- The registry's `entity_map_` (`sparse_map<entity_id_t,
entity_location>`), modelled as an association list. -/
def findLoc : List (Nat × Location) → Nat → Option Location
  | [], _ => none
  | (k, v) :: rest, id => if k = id then some v else findLoc rest id

/-- `registry::remove_location`. -/
def eraseLoc : List (Nat × Location) → Nat → List (Nat × Location)
  | [], _ => []
  | (k, v) :: rest, id =>
    if k = id then eraseLoc rest id else (k, v) :: eraseLoc rest id

/-- `registry::save_location` (`entity_map_[id] = el`: upsert). -/
def saveLoc (m : List (Nat × Location)) (id : Nat) (loc : Location) :
    List (Nat × Location) :=
  match findLoc m id with
  | some _ => m.map (fun kv => if kv.1 = id then (id, loc) else kv)
  | none => m ++ [(id, loc)]

/-- `ecs::registry`: the pool, the archetype storage (abstracted to a
vector of archetypes) and the entity-location map. -/
structure Registry where
  pool : EntityPool
  archetypes : List Archetype
  entityMap : List (Nat × Location)
deriving DecidableEq, Repr

/-- `registry::destroy`, step for step, returning the registry state
reached together with the error raised (if any):
`ensure_alive` (throws *entity-not-found* before any mutation),
`get_location`, `erase_and_fill`, `remove_location`, conditional
`save_location` for the moved entity, then the unguarded
`auto tmp = get_location(moved->id())` — which dereferences an empty
`std::optional` whenever nothing was moved — and finally
`entity_pool_.recycle(e)`. -/
def Registry.destroy (r : Registry) (e : Entity) :
    Registry × Option EcsError :=
  if poolAlive r.pool e = false then (r, some EcsError.entityNotFound)
  else
    match findLoc r.entityMap e.id with
    | none => (r, some EcsError.locationMissing)
    | some loc =>
      match r.archetypes.get? loc.archIdx with
      | none => (r, some EcsError.locationMissing)
      | some arch =>
        let res := arch.eraseAndFill loc.blockIdx loc.entryIdx
        let r₁ : Registry :=
          { r with archetypes := r.archetypes.set loc.archIdx res.1,
                   entityMap := eraseLoc r.entityMap e.id }
        match res.2 with
        | some m =>
          let r₂ : Registry :=
            { r₁ with entityMap := saveLoc r₁.entityMap m.id loc }
          match findLoc r₂.entityMap m.id with
          | none => (r₂, some EcsError.locationMissing)
          | some _ => ({ r₂ with pool := poolRecycle r₂.pool e }, none)
        | none => (r₁, some EcsError.derefEmptyOptional)

/-- `registry::get` (via `get_impl`): `ensure_alive` first (throwing
*entity-not-found* on a dead handle), then location lookup and the
typed access into the block's row. -/
def Registry.getRow (r : Registry) (e : Entity) : Except EcsError Row :=
  if poolAlive r.pool e = false then Except.error EcsError.entityNotFound
  else
    match findLoc r.entityMap e.id with
    | none => Except.error EcsError.locationMissing
    | some loc =>
      match r.archetypes.get? loc.archIdx with
      | none => Except.error EcsError.locationMissing
      | some arch =>
        match (arch.blocks.get? loc.blockIdx).bind
            (fun b => b.rows.get? loc.entryIdx) with
        | none => Except.error EcsError.locationMissing
        | some row => Except.ok row

/-! ## Block destructor events (`mem_block.hpp`) -/

/-- Observable effects of `mem_block::~mem_block`. -/
inductive DropEvent where
  | destructCall (compId : Nat) (slot : Nat)
  | freeBuffer
deriving DecidableEq, Repr

/-- The body of the destructor's inner per-slot loop: the
`block_md.meta.type->destruct(...)` call is commented out in the
source ("TODO investigate why this causes crash"), so the loop emits
no events. -/
def slotDestructsDisabled (_cm : Nat × Meta) (_n : Nat) : List DropEvent := []

/-- `mem_block::~mem_block` as the sequence of events it performs:
nothing when the buffer was moved out (`buffer_ == nullptr`);
otherwise the (empty-bodied) per-component per-slot loop followed by
`std::free(buffer_)`. -/
def memBlockDropEvents (bufferNull : Bool) (layout : List (Nat × Meta))
    (n : Nat) : List DropEvent :=
  if bufferNull then []
  else
    (layout.foldl (fun acc cm => acc ++ slotDestructsDisabled cm n) []) ++
      [DropEvent.freeBuffer]

/-- Follows the spec's words (§4.4 Destruction): "on block drop,
destroy all live components in slots `[0, n)` for every component in
layout, then free the buffer". -/
def specBlockDropEvents (bufferNull : Bool) (layout : List (Nat × Meta))
    (n : Nat) : List DropEvent :=
  if bufferNull then []
  else
    (layout.foldl
      (fun acc cm =>
        acc ++ (List.range n).map (fun i => DropEvent.destructCall cm.1 i))
      []) ++ [DropEvent.freeBuffer]

/-! ## Concrete scenarios

Small reachable states used to evaluate the model at specific inputs.
Component values are arbitrary `Nat` tags. -/

/-- A registry holding exactly one entity `(0,0)` with one component
value, sitting in the only (hence last) block of its archetype:
the state reached by `create` on a fresh registry. -/
def c1reg : Registry :=
  { pool := ⟨1, [0], []⟩,
    archetypes := [⟨2, [⟨2, [(⟨0, 0⟩, [5])]⟩]⟩],
    entityMap := [(0, ⟨0, 0, 0⟩)] }

/-- An archetype of capacity 2 after three `emplace_back` calls: block
0 is full with entities `0` and `1`, block 1 holds entity `2`. -/
def c2arch : Archetype :=
  (((((Archetype.fresh 2).emplaceBack ⟨0, 0⟩ [10]).1.emplaceBack
      ⟨1, 0⟩ [11]).1).emplaceBack ⟨2, 0⟩ [12]).1

/-- A registry over `c2arch` with the three entities' locations
recorded as `create` recorded them. -/
def c3reg : Registry :=
  { pool := ⟨3, [0, 0, 0], []⟩,
    archetypes := [c2arch],
    entityMap := [(0, ⟨0, 0, 0⟩), (1, ⟨0, 0, 1⟩), (2, ⟨0, 1, 0⟩)] }

/-- Meta-set of the C5/C6 scenario: a 2-byte align-1 component
followed by a 16-byte align-8 component (`s3` then `s1` of the
repository's `main.cpp`). -/
def c5metas : List ComponentMeta := [⟨1, ⟨2, 1⟩⟩, ⟨2, ⟨16, 8⟩⟩]

/-- Entity pool scenario for the id-counter wrap-around: the initial
empty pool. -/
def c9start : EntityPool := ⟨0, [], []⟩

/-- The first handle a fresh pool returns. -/
def c9e : Entity := ⟨0, 0⟩

/-- Pool after one `create` (entity `(0,0)` is alive). -/
def c9afterCreate : EntityPool := (poolCreate c9start).2

/-- Pool after `create` then `recycle (0,0)`. -/
def c9afterRecycle : EntityPool := poolRecycle c9afterCreate c9e

/-- `2^32 + 1` further `create` calls: one pops the freed id, the
remaining `2^32` mint fresh ids until `next_id_` wraps back to 0. -/
def c9tailOps : List PoolOp := List.replicate (u32 + 1) PoolOp.create

/-- The whole operation sequence of the wrap-around scenario. -/
def c9ops : List PoolOp := PoolOp.create :: PoolOp.recycle c9e :: c9tailOps

/-! ## Theorems -/

/-- Claim C1 (code bug): `destroy` on an entity occupying the last
live slot of its archetype's last block does not complete
successfully: `erase_and_fill` moves nothing (`moved = None`), so the
unguarded `get_location(moved->id())` dereferences an empty optional;
the handle is never recycled and is still alive afterwards,
contradicting the claimed postcondition `alive(e) = false`. -/
theorem c1_destroy_last_slot_fails :
    poolAlive c1reg.pool ⟨0, 0⟩ = true ∧
    (c1reg.destroy ⟨0, 0⟩).2 = some EcsError.derefEmptyOptional ∧
    poolAlive (c1reg.destroy ⟨0, 0⟩).1.pool ⟨0, 0⟩ = true := by decide

/-- Claim C2 (code bug): after three `emplace_back` calls into a
capacity-2 archetype, erasing the entity at block 0, slot 1 makes
`mem_block::erase_and_fill` take the destroy-last shortcut (returning
`None`) although block 0 is not the archetype's last block — leaving
block 0 with 1 < 2 entries while block 1 is still there, so the
"every block except the last is full" invariant is violated. -/
theorem c2_nonlast_block_left_unfull :
    allButLastFull c2arch = true ∧
    c2arch.blocks.length = 2 ∧
    (c2arch.eraseAndFill 0 1).2 = none ∧
    (c2arch.eraseAndFill 0 1).1.blocks.length = 2 ∧
    allButLastFull (c2arch.eraseAndFill 0 1).1 = false := by decide

/-- Claim C3 (code bug): destroying entity `1` — which sits at block
0, slot 1, *not* in the last live slot of the archetype's last block —
moves no other entity: `erase_and_fill` returns `None` instead of
moving entity `2` (the last block's last slot) into the freed slot,
entity `2`'s recorded location stays `(block 1, slot 0)`, and
`destroy` then fails on the empty `moved` optional. -/
theorem c3_no_entity_moved_into_hole :
    poolAlive c3reg.pool ⟨1, 0⟩ = true ∧
    findLoc c3reg.entityMap 1 = some ⟨0, 0, 1⟩ ∧
    (c3reg.destroy ⟨1, 0⟩).2 = some EcsError.derefEmptyOptional ∧
    findLoc (c3reg.destroy ⟨1, 0⟩).1.entityMap 2 = some ⟨0, 1, 0⟩ ∧
    (c3reg.destroy ⟨1, 0⟩).1.archetypes =
      [⟨2, [⟨2, [(⟨0, 0⟩, [10])]⟩, ⟨2, [(⟨2, 0⟩, [12])]⟩]⟩] := by decide

/-- Claim C4 (code bug): dropping a block with a non-null buffer, one
component in the layout and one live slot emits no `destruct` call at
all (the per-slot call is commented out in the source destructor) —
only the `free` — whereas the spec requires the destruct of slot 0
before the free. -/
theorem c4_drop_emits_no_destructs :
    memBlockDropEvents false [(7, ⟨4, 4⟩)] 1 = [DropEvent.freeBuffer] ∧
    specBlockDropEvents false [(7, ⟨4, 4⟩)] 1 =
      [DropEvent.destructCall 7 0, DropEvent.freeBuffer] := by decide

/-- Claim C5 (code bug): for the meta order `[s3(2,1), s1(16,8)]`
(entity section first) the constructor computes `max_size = 630` and
records offset `6300` for the align-8 component — the *unaligned*
previous section end, recorded before the padding is added — instead
of `align_up(6300, 8) = 6304`; `6300` is not a multiple of 8. -/
theorem c5_recorded_offset_unaligned :
    archetypeLayout c5metas =
      Except.ok (630, [(0, 0), (1, 5040), (2, 6300)]) ∧
    alignUp 6300 8 = 6304 ∧
    ¬(6300 % 8 = 0) := ⟨rfl, by decide, by decide⟩

/-- Rounding up to a multiple via ceiling division agrees with adding
the `mod2n` padding, for any positive alignment. -/
theorem alignUp_eq_add_mod2n (x a : Nat) (ha : 0 < a) :
    alignUp x a = x + mod2n x a := by
  unfold alignUp mod2n
  obtain ⟨q, r, hx, hr⟩ : ∃ q r, x = a * q + r ∧ r < a :=
    ⟨x / a, x % a, (Nat.div_add_mod x a).symm, Nat.mod_lt x ha⟩
  have hmod : x % a = r := by
    rw [hx, Nat.mul_add_mod, Nat.mod_eq_of_lt hr]
  rcases Nat.eq_zero_or_pos r with hr0 | hr1
  · subst hr0
    have h1 : x + a - 1 = (a - 1) + q * a := by
      rw [Nat.mul_comm]; omega
    rw [hmod, h1, Nat.add_mul_div_right _ _ ha,
      Nat.div_eq_of_lt (by omega), Nat.sub_zero, Nat.mod_self, Nat.zero_add,
      Nat.mul_comm q a]
    omega
  · rw [Nat.mul_comm a q] at hx
    have h1 : x + a - 1 = (r - 1) + (q + 1) * a := by
      rw [Nat.succ_mul]; omega
    rw [hmod, h1, Nat.add_mul_div_right _ _ ha,
      Nat.div_eq_of_lt (by omega), Nat.mod_eq_of_lt (by omega), Nat.zero_add,
      Nat.succ_mul]
    omega

/-- On metas whose alignments are positive, the source's running-end
step (`end += mod_2n(end, align); end += size`) agrees with the
spec's align-up-then-add step. -/
theorem foldl_step_eq (metas : List Meta) (h : ∀ m ∈ metas, 0 < m.align) :
    ∀ e : Nat, metas.foldl addElements e = metas.foldl specAlignStep e := by
  induction metas with
  | nil => intro e; rfl
  | cons m rest ih =>
    intro e
    have hm : 0 < m.align := h m (List.mem_cons_self m rest)
    have hrest : ∀ m' ∈ rest, 0 < m'.align :=
      fun m' hm' => h m' (List.mem_cons_of_mem m hm')
    simp only [List.foldl_cons]
    rw [ih hrest]
    have hstep : addElements e m = specAlignStep e m := by
      unfold addElements specAlignStep
      rw [alignUp_eq_add_mod2n _ _ hm]
    rw [hstep]

/-- The code's `aligned_components_size` equals the claim's one-slot
footprint when every alignment is positive. -/
theorem alignedComponentsSize_eq_spec (metas : List Meta)
    (h : ∀ m ∈ metas, 0 < m.align) :
    alignedComponentsSize metas = specOneSlotFootprint metas := by
  unfold alignedComponentsSize specOneSlotFootprint
  rw [foldl_step_eq metas h]
  have hstep : addElements entityAlign ⟨entitySize, entityAlign⟩ =
      specAlignStep entityAlign ⟨entitySize, entityAlign⟩ := by
    unfold addElements specAlignStep
    rw [alignUp_eq_add_mod2n _ _ (by decide)]
  rw [hstep]

/-- Folding size addition from any accumulator adds the size sum. -/
theorem foldl_add_size (metas : List Meta) :
    ∀ c : Nat,
      metas.foldl (fun (r : Nat) (m : Meta) => r + m.size) c =
        c + sumSizes metas := by
  induction metas with
  | nil => intro c; simp [sumSizes]
  | cons m rest ih =>
    intro c
    simp only [List.foldl_cons]
    rw [ih]
    simp [sumSizes, Nat.add_assoc]

/-- The code's `packed_components_size` is `sizeof(entity)` plus the
sum of the component sizes. -/
theorem packedComponentsSize_eq (metas : List Meta) :
    packedComponentsSize metas = entitySize + sumSizes metas := by
  unfold packedComponentsSize
  exact foldl_add_size metas entitySize

/-- Claim C6: archetype construction fails with the capacity error
exactly when the aligned one-slot footprint exceeds the 16 KiB block,
and otherwise yields
`(block_size - footprint) / (sizeof(entity) + Σ sizes) + 1`. -/
theorem c6_max_size_formula (metas : List Meta)
    (h : ∀ m ∈ metas, 0 < m.align) :
    getMaxSize metas =
      if memBlockSize < specOneSlotFootprint metas then
        Except.error EcsError.capacityExceeded
      else
        Except.ok ((memBlockSize - specOneSlotFootprint metas) /
          (entitySize + sumSizes metas) + 1) := by
  unfold getMaxSize
  rw [alignedComponentsSize_eq_spec metas h, packedComponentsSize_eq]

/-- Witness for C6 at the `[s3, s1]` meta list. -/
theorem c6_max_size_formula_witness :
    (∀ m ∈ [Meta.mk 2 1, Meta.mk 16 8], 0 < m.align) ∧
    getMaxSize [Meta.mk 2 1, Meta.mk 16 8] =
      if memBlockSize < specOneSlotFootprint [Meta.mk 2 1, Meta.mk 16 8] then
        Except.error EcsError.capacityExceeded
      else
        Except.ok ((memBlockSize -
            specOneSlotFootprint [Meta.mk 2 1, Meta.mk 16 8]) /
          (entitySize + sumSizes [Meta.mk 2 1, Meta.mk 16 8]) + 1) :=
  ⟨by decide, c6_max_size_formula [Meta.mk 2 1, Meta.mk 16 8] (by decide)⟩

/-- Claim C7: on a handle that is not alive, `destroy` and `get`
raise *entity-not-found* from `ensure_alive` before touching anything:
`destroy` hands back the registry exactly as it was (pool, archetypes
and entity map included) and `get` reads nothing. -/
theorem c7_dead_handle_atomic (r : Registry) (e : Entity)
    (h : poolAlive r.pool e = false) :
    r.destroy e = (r, some EcsError.entityNotFound) ∧
    r.getRow e = Except.error EcsError.entityNotFound := by
  constructor
  · unfold Registry.destroy
    rw [h]
    simp
  · unfold Registry.getRow
    rw [h]
    simp

/-- Witness for C7: a dead handle (stale generation) on the one-entity
registry. -/
theorem c7_dead_handle_atomic_witness :
    poolAlive c1reg.pool ⟨0, 7⟩ = false ∧
    (c1reg.destroy ⟨0, 7⟩ = (c1reg, some EcsError.entityNotFound) ∧
      c1reg.getRow ⟨0, 7⟩ = Except.error EcsError.entityNotFound) :=
  ⟨by decide, c7_dead_handle_atomic c1reg ⟨0, 7⟩ (by decide)⟩

/-- Two bitsets with equal word vectors are equal. -/
@[ext] theorem DynBitset.ext {a b : DynBitset} (h : a.blocks = b.blocks) :
    a = b := by
  cases a; cases b; cases h; rfl

/-- Growing with zero words changes no `getD`-read. -/
theorem getD_growWords (l : List Nat) (bi i : Nat) :
    (growWords l bi).getD i 0 = l.getD i 0 := by
  unfold growWords
  by_cases h : l.length ≤ bi
  · rw [if_pos h]
    by_cases hi : i < l.length
    · exact List.getD_append _ _ _ _ hi
    · rw [List.getD_append_right _ _ _ _ (by omega),
        List.getD_eq_getElem?_getD, List.getElem?_getD_replicate_default_eq,
        List.getD_eq_default _ _ (by omega)]
  · rw [if_neg h]

/-- Length after growing. -/
theorem length_growWords (l : List Nat) (bi : Nat) :
    (growWords l bi).length = max l.length (bi + 1) := by
  unfold growWords
  by_cases h : l.length ≤ bi
  · rw [if_pos h, List.length_append, List.length_replicate]
    omega
  · rw [if_neg h]
    omega

/-- The quotient component of `block_and_bit`. -/
theorem blockAndBit_fst (pos : Nat) : (blockAndBit pos).1 = pos / wordBits :=
  rfl

/-- The remainder component of `block_and_bit`. -/
theorem blockAndBit_snd (pos : Nat) : (blockAndBit pos).2 = pos % wordBits :=
  rfl

/-- Length after `set(pos, true)`. -/
theorem length_bsetTrue (s : DynBitset) (p : Nat) :
    (bsetTrue s p).blocks.length = max s.blocks.length (p / wordBits + 1) := by
  unfold bsetTrue setWord
  rw [List.length_set, blockAndBit_fst, length_growWords]

/-- Word-level description of `set(pos, true)`: the target word gets
the bit OR-ed in, every other word (and every out-of-range read) is
unchanged. -/
theorem getD_bsetTrue (s : DynBitset) (p i : Nat) :
    (bsetTrue s p).blocks.getD i 0 =
      if i = p / wordBits then
        s.blocks.getD i 0 ||| (1 <<< (p % wordBits))
      else s.blocks.getD i 0 := by
  unfold bsetTrue setWord
  rw [blockAndBit_fst, blockAndBit_snd]
  have hlen : p / wordBits < (growWords s.blocks (p / wordBits)).length := by
    rw [length_growWords]; omega
  by_cases h : i = p / wordBits
  · subst h
    rw [if_pos rfl, List.getD_eq_getElem?_getD,
      List.getElem?_set_self hlen, getD_growWords]
    rfl
  · rw [if_neg h, List.getD_eq_getElem?_getD,
      List.getElem?_set_ne (fun he => h he.symm),
      ← List.getD_eq_getElem?_getD, getD_growWords]

/-- Lists whose lengths agree and whose `getD 0`-reads agree are
equal. -/
theorem list_ext_getD : ∀ (l₁ l₂ : List Nat), l₁.length = l₂.length →
    (∀ i, l₁.getD i 0 = l₂.getD i 0) → l₁ = l₂ := by
  intro l₁
  induction l₁ with
  | nil =>
    intro l₂ hlen _
    cases l₂ with
    | nil => rfl
    | cons b t => simp at hlen
  | cons a t ih =>
    intro l₂ hlen h
    cases l₂ with
    | nil => simp at hlen
    | cons b t₂ =>
      have h0 := h 0
      simp only [List.getD_cons_zero] at h0
      have ht : t = t₂ := by
        apply ih t₂ (by simpa using hlen)
        intro i
        have := h (i + 1)
        simpa only [List.getD_cons_succ] using this
      rw [h0, ht]

/-- Setting two bits commutes. -/
theorem bsetTrue_comm (s : DynBitset) (p q : Nat) :
    bsetTrue (bsetTrue s p) q = bsetTrue (bsetTrue s q) p := by
  apply DynBitset.ext
  apply list_ext_getD
  · rw [length_bsetTrue, length_bsetTrue, length_bsetTrue, length_bsetTrue]
    omega
  · intro i
    rw [getD_bsetTrue, getD_bsetTrue, getD_bsetTrue, getD_bsetTrue]
    by_cases h1 : i = p / wordBits <;> by_cases h2 : i = q / wordBits
    · simp only [if_pos h1, if_pos h2]
      rw [Nat.lor_assoc, Nat.lor_assoc,
        Nat.lor_comm (1 <<< (p % wordBits)) (1 <<< (q % wordBits))]
    · subst h1; simp [h2]
    · subst h2; simp [h1]
    · simp [h1, h2]

/-- Folding `set(pos, true)` over a list is invariant under
permutation of the list. -/
theorem foldl_bsetTrue_perm {l₁ l₂ : List Nat} (h : l₁.Perm l₂) :
    ∀ s : DynBitset, l₁.foldl bsetTrue s = l₂.foldl bsetTrue s := by
  induction h with
  | nil => intro s; rfl
  | cons x _ ih => intro s; simp only [List.foldl_cons]; exact ih _
  | swap x y l => intro s; simp only [List.foldl_cons]; rw [bsetTrue_comm]
  | trans _ _ ih₁ ih₂ => intro s; rw [ih₁ s, ih₂ s]

/-- The `ensure_archetype` key is order-independent. -/
theorem buildKey_perm {l₁ l₂ : List Nat} (h : l₁.Perm l₂) :
    buildKey l₁ = buildKey l₂ :=
  foldl_bsetTrue_perm h ⟨[]⟩

/-- A key absent from the map is found after being appended. -/
theorem assocFind_append_self (k : DynBitset) (v : Nat) :
    ∀ l : List (DynBitset × Nat), assocFind l k = none →
      assocFind (l ++ [(k, v)]) k = some v := by
  intro l
  induction l with
  | nil => intro _; simp [assocFind]
  | cons kv rest ih =>
    intro h
    obtain ⟨k', v'⟩ := kv
    by_cases hk : k' = k
    · simp only [assocFind, if_pos hk] at h
      exact Option.noConfusion h
    · rw [List.cons_append]
      simp only [assocFind, if_neg hk] at h ⊢
      exact ih h

/-- Claim C8: component type lists that are permutations of each other
build equal component-set keys with equal hashes, and two successive
`ensure_archetype` calls with the two orders yield the same
archetype. -/
theorem c8_permuted_lists_same_archetype
    (reg : List (DynBitset × Nat)) (fresh fresh' : Nat)
    (ids₁ ids₂ : List Nat) (h : ids₁.Perm ids₂) :
    buildKey ids₁ = buildKey ids₂ ∧
    bhash (buildKey ids₁) = bhash (buildKey ids₂) ∧
    (ensureArchetype (ensureArchetype reg fresh ids₁).2 fresh' ids₂).1 =
      (ensureArchetype reg fresh ids₁).1 := by
  have hkey : buildKey ids₁ = buildKey ids₂ := buildKey_perm h
  refine ⟨hkey, by rw [hkey], ?_⟩
  unfold ensureArchetype
  rw [← hkey]
  cases hfind : assocFind reg (buildKey ids₁) with
  | some a => simp [hfind]
  | none => simp [hfind, assocFind_append_self _ fresh reg hfind]

/-- Witness for C8 at the lists `[0, 70]` and `[70, 0]`. -/
theorem c8_permuted_lists_same_archetype_witness :
    ([0, 70] : List Nat).Perm [70, 0] ∧
    (buildKey [0, 70] = buildKey [70, 0] ∧
      bhash (buildKey [0, 70]) = bhash (buildKey [70, 0]) ∧
      (ensureArchetype (ensureArchetype [] 5 [0, 70]).2 9 [70, 0]).1 =
        (ensureArchetype [] 5 [0, 70]).1) :=
  ⟨by decide,
    c8_permuted_lists_same_archetype [] 5 9 [0, 70] [70, 0] (by decide)⟩

/-- `test` reads as a plain word read: out-of-range indices read the
default 0 word, whose masked value is 0. -/
theorem btest_eq_getD (s : DynBitset) (pos : Nat) :
    btest s pos =
      (s.blocks.getD (pos / wordBits) 0 &&& (1 <<< (pos % wordBits)) != 0) := by
  unfold btest
  rw [blockAndBit_fst, blockAndBit_snd]
  by_cases h : pos / wordBits < s.blocks.length
  · rw [if_pos h]
  · rw [if_neg h, List.getD_eq_default _ _ (by omega), Nat.zero_and]
    rfl

/-- Masking with a single shifted bit tests that bit. -/
theorem and_shift_ne_zero (w b : Nat) :
    (w &&& (1 <<< b) != 0) = w.testBit b := by
  rw [Nat.one_shiftLeft, Nat.and_two_pow]
  cases h : w.testBit b
  · simp
  · have h2 : (0 : Nat) < 2 ^ b := Nat.pos_pow_of_pos b (by omega)
    simp [bne_iff_ne]

/-- Setting a different position leaves a `test` read unchanged. -/
theorem btest_bsetTrue_ne (s : DynBitset) (p pos : Nat) (h : pos ≠ p) :
    btest (bsetTrue s p) pos = btest s pos := by
  rw [btest_eq_getD, btest_eq_getD, getD_bsetTrue]
  by_cases hw : pos / wordBits = p / wordBits
  · rw [if_pos hw, and_shift_ne_zero, and_shift_ne_zero, Nat.testBit_or]
    have hb : p % wordBits ≠ pos % wordBits := by
      have h1 := Nat.div_add_mod pos 64
      have h2 := Nat.div_add_mod p 64
      have hw2 : pos / 64 = p / 64 := hw
      intro hbe
      have hbe2 : p % 64 = pos % 64 := hbe
      exact h (by omega)
    rw [Nat.one_shiftLeft, Nat.testBit_two_pow_of_ne hb, Bool.or_false]
  · rw [if_neg hw]

/-- Word-level description of the pre-trim clear step. -/
theorem getD_clearWord (l : List Nat) (p i : Nat) :
    (clearWord l p).getD i 0 =
      if i = p / wordBits then
        l.getD i 0 &&& (u64Mask ^^^ (1 <<< (p % wordBits)))
      else l.getD i 0 := by
  unfold clearWord
  rw [blockAndBit_fst, blockAndBit_snd]
  have hlen : p / wordBits < (growWords l (p / wordBits)).length := by
    rw [length_growWords]; omega
  by_cases h : i = p / wordBits
  · subst h
    rw [if_pos rfl, List.getD_eq_getElem?_getD,
      List.getElem?_set_self hlen, getD_growWords]
    rfl
  · rw [if_neg h, List.getD_eq_getElem?_getD,
      List.getElem?_set_ne (fun he => h he.symm),
      ← List.getD_eq_getElem?_getD, getD_growWords]

/-- A `take` keeps a `getD`-read or zeroes it. -/
theorem getD_take_or (l : List Nat) (k i : Nat) :
    (l.take k).getD i 0 = l.getD i 0 ∨ (l.take k).getD i 0 = 0 := by
  by_cases h : i < (l.take k).length
  · left
    rw [List.getD_eq_getElem?_getD, List.getD_eq_getElem?_getD,
      List.getElem?_take_of_lt (by simp at h; omega)]
  · right
    rw [List.getD_eq_default _ _ (by omega)]

/-- A position reading `false` still reads `false` after any
`set(p, false)` — clearing a bit and trimming zero words can never
turn a bit on. -/
theorem btest_bsetFalse_false (s : DynBitset) (p pos : Nat)
    (h : btest s pos = false) :
    btest (bsetFalse s p) pos = false := by
  rw [btest_eq_getD] at h ⊢
  have hblocks : (bsetFalse s p).blocks =
      (clearWord s.blocks p).take (lastNonzeroIdx (clearWord s.blocks p) + 1) :=
    rfl
  rw [hblocks]
  rcases getD_take_or (clearWord s.blocks p)
      (lastNonzeroIdx (clearWord s.blocks p) + 1) (pos / wordBits) with
    htake | htake
  · rw [htake, getD_clearWord]
    by_cases hw : pos / wordBits = p / wordBits
    · rw [if_pos hw, and_shift_ne_zero, Nat.testBit_and]
      rw [and_shift_ne_zero] at h
      rw [h, Bool.false_and]
    · rw [if_neg hw]
      exact h
  · rw [htake, Nat.zero_and]
    rfl

/-- A fresh `component_set` reads `false` everywhere. -/
theorem btest_bitsetDefault (pos : Nat) : btest bitsetDefault pos = false := by
  rw [btest_eq_getD]
  have h0 : (bitsetDefault.blocks.getD (pos / wordBits) 0) = 0 := by
    cases hq : pos / wordBits with
    | zero => rfl
    | succ n => rfl
  rw [h0, Nat.zero_and]
  rfl

/-- A never-inserted position reads `false` after any operation
sequence, starting from any state where it reads `false`. -/
theorem btest_csApply_false (ops : List CsOp) :
    ∀ (s : DynBitset) (pos : Nat), btest s pos = false →
      CsOp.insert pos ∉ ops → btest (csApply s ops) pos = false := by
  induction ops with
  | nil => intro s pos h _; exact h
  | cons op rest ih =>
    intro s pos h hmem
    cases op with
    | insert id =>
      have hne : pos ≠ id := by
        intro he
        exact hmem (by rw [he]; exact List.mem_cons_self _ _)
      show btest (csApply (bsetTrue s id) rest) pos = false
      exact ih _ pos (by rw [btest_bsetTrue_ne s id pos hne]; exact h)
        (fun hm => hmem (List.mem_cons_of_mem _ hm))
    | erase id =>
      show btest (csApply (bsetFalse s id) rest) pos = false
      exact ih _ pos (btest_bsetFalse_false s id pos h)
        (fun hm => hmem (List.mem_cons_of_mem _ hm))

/-- Claim C10: membership queries on component sets are total and
side-effect-free.  `contains` (a pure read in the model, mirroring the
`const` C++ `test` which performs no resize) returns `false` for any
bit position beyond the currently allocated words, and returns `false`
for every id that no operation of the set's history inserted — however
the words grew or shrank along the way. -/
theorem c10_contains_total_and_false_when_never_set :
    (∀ (s : DynBitset) (pos : Nat), s.blocks.length ≤ pos / wordBits →
      btest s pos = false) ∧
    (∀ (ops : List CsOp) (pos : Nat), CsOp.insert pos ∉ ops →
      btest (csApply bitsetDefault ops) pos = false) := by
  constructor
  · intro s pos h
    unfold btest
    rw [blockAndBit_fst, if_neg (by omega)]
  · intro ops pos hmem
    exact btest_csApply_false ops bitsetDefault pos
      (btest_bitsetDefault pos) hmem

/-- Witness for C10: a read far beyond the single allocated word, and
a read of id 5 after inserting 3, erasing 3 and inserting 70. -/
theorem c10_contains_total_and_false_when_never_set_witness :
    btest ⟨[0]⟩ 130 = false ∧
    btest (csApply bitsetDefault
      [CsOp.insert 3, CsOp.erase 3, CsOp.insert 70]) 5 = false :=
  ⟨c10_contains_total_and_false_when_never_set.1 ⟨[0]⟩ 130 (by decide),
    c10_contains_total_and_false_when_never_set.2
      [CsOp.insert 3, CsOp.erase 3, CsOp.insert 70] 5 (by decide)⟩

/-- A run of `k` fresh creates (empty free stack) returns the handles
`(nextId + i mod 2^32, 0)` for `i < k`. -/
theorem runOps_replicate_create (k : Nat) :
    ∀ p : EntityPool, p.freedIds = [] → p.nextId < u32 →
      (runOps p (List.replicate k PoolOp.create)).2 =
        (List.range k).map (fun i => Entity.mk ((p.nextId + i) % u32) 0) := by
  induction k with
  | zero => intro p _ _; rfl
  | succ k ih =>
    intro p hf hn
    obtain ⟨n, g, f⟩ := p
    subst hf
    rw [List.replicate_succ]
    have hstep :
        (runOps ⟨n, g, []⟩ (PoolOp.create :: List.replicate k PoolOp.create)).2 =
          Entity.mk n 0 ::
            (runOps ⟨(n + 1) % u32, g ++ [0], []⟩
              (List.replicate k PoolOp.create)).2 := rfl
    rw [hstep, ih ⟨(n + 1) % u32, g ++ [0], []⟩ rfl (Nat.mod_lt _ (by decide))]
    rw [List.range_succ_eq_map, List.map_cons, List.map_map]
    have hhead : Entity.mk n 0 = Entity.mk ((n + 0) % u32) 0 := by
      rw [Nat.add_zero, Nat.mod_eq_of_lt hn]
    rw [hhead]
    have htail : ∀ i ∈ List.range k,
        Entity.mk (((n + 1) % u32 + i) % u32) 0 =
          (fun j => Entity.mk ((n + j) % u32) 0) (Nat.succ i) := by
      intro i _
      have harg : ((n + 1) % u32 + i) % u32 = (n + Nat.succ i) % u32 := by
        rw [Nat.mod_add_mod]
        have : n + 1 + i = n + Nat.succ i := by omega
        rw [this]
      rw [harg]
    rw [List.map_congr_left htail]
    rfl

/-- A run consisting only of creates never trips the generation-
overflow condition (it recycles nothing). -/
theorem noGenOverflowRun_creates (k : Nat) :
    ∀ p : EntityPool,
      noGenOverflowRun p (List.replicate k PoolOp.create) = true := by
  induction k with
  | zero => intro p; rfl
  | succ k ih =>
    intro p
    rw [List.replicate_succ]
    show noGenOverflowRun (poolCreate p).2 (List.replicate k PoolOp.create) = true
    exact ih (poolCreate p).2

/-- One-step equation of `runOps` for a leading `create`, with the
tail left symbolic. -/
theorem runOps_create (p : EntityPool) (ops : List PoolOp) :
    runOps p (PoolOp.create :: ops) =
      ((runOps (poolCreate p).2 ops).1,
        (poolCreate p).1 :: (runOps (poolCreate p).2 ops).2) := rfl

/-- One-step equation of `runOps` for a leading `recycle`. -/
theorem runOps_recycle (p : EntityPool) (e : Entity) (ops : List PoolOp) :
    runOps p (PoolOp.recycle e :: ops) = runOps (poolRecycle p e) ops := rfl

/-- One-step equation of `noGenOverflowRun` for a leading `create`. -/
theorem noGenOverflowRun_create (p : EntityPool) (ops : List PoolOp) :
    noGenOverflowRun p (PoolOp.create :: ops) =
      noGenOverflowRun (poolCreate p).2 ops := rfl

/-- One-step equation of `noGenOverflowRun` for a leading
`recycle`. -/
theorem noGenOverflowRun_recycle (p : EntityPool) (e : Entity)
    (ops : List PoolOp) :
    noGenOverflowRun p (PoolOp.recycle e :: ops) =
      ((!poolAlive p e ||
        decide (p.generations.getD e.id 0 + 1 < u32)) &&
        noGenOverflowRun (poolRecycle p e) ops) := rfl

/-- Counterexample to claim C9 as stated: entity `(0,0)` is created
and successfully recycled, the whole run increments no generation
counter past `2^32 - 1` — yet after `2^32 + 1` further `create` calls
(one popping the free stack, then `2^32` fresh ones wrapping the
32-bit `next_id_`) `create` returns the handle `(0,0)` again. -/
theorem c9_counterexample :
    (poolCreate c9start).1 = c9e ∧
    poolAlive c9afterCreate c9e = true ∧
    noGenOverflowRun c9start c9ops = true ∧
    c9e ∈ (runOps c9afterRecycle c9tailOps).2 := by
  refine ⟨rfl, by decide, ?_, ?_⟩
  · show noGenOverflowRun c9start
      (PoolOp.create :: PoolOp.recycle c9e :: c9tailOps) = true
    rw [noGenOverflowRun_create, noGenOverflowRun_recycle, Bool.and_eq_true]
    constructor
    · decide
    · exact noGenOverflowRun_creates (u32 + 1) _
  · have hred : c9afterRecycle = ⟨1, [1], [0]⟩ := by decide
    rw [hred]
    show c9e ∈ (runOps ⟨1, [1], [0]⟩
      (List.replicate (u32 + 1) PoolOp.create)).2
    rw [List.replicate_succ, runOps_create]
    show c9e ∈ (poolCreate ⟨1, [1], [0]⟩).1 ::
      (runOps (poolCreate ⟨1, [1], [0]⟩).2
        (List.replicate u32 PoolOp.create)).2
    apply List.mem_cons_of_mem
    have hp : (poolCreate ⟨1, [1], [0]⟩).2 = (⟨1, [1], []⟩ : EntityPool) := by
      decide
    rw [hp, runOps_replicate_create u32 ⟨1, [1], []⟩ rfl (by decide)]
    apply List.mem_map.mpr
    have hpos : 0 < u32 := by decide
    refine ⟨u32 - 1, List.mem_range.mpr (by omega), ?_⟩
    show Entity.mk ((1 + (u32 - 1)) % u32) 0 = c9e
    have h1 : 1 + (u32 - 1) = u32 := by omega
    rw [h1, Nat.mod_self]
    rfl

/-- The invariant carried through a run for a recycled handle `e`:
the pool is well-formed (`next_id` equals the generation count) and
`e`'s stored generation has strictly passed `e.gen`. -/
def PoolInv (e : Entity) (p : EntityPool) : Prop :=
  p.nextId = p.generations.length ∧
  e.id < p.generations.length ∧
  e.gen < p.generations.getD e.id 0

/-- `create` preserves the invariant (given its no-overflow side
condition) and never returns `e`. -/
theorem poolInv_create (e : Entity) (p : EntityPool)
    (h : PoolInv e p)
    (hc : p.freedIds = [] → p.nextId + 1 < u32) :
    PoolInv e (poolCreate p).2 ∧ (poolCreate p).1 ≠ e := by
  obtain ⟨hwf, hid, hgen⟩ := h
  obtain ⟨n, g, f⟩ := p
  cases f with
  | cons i rest =>
    refine ⟨⟨hwf, hid, hgen⟩, ?_⟩
    intro he
    have h1 : i = e.id := congrArg Entity.id he
    have h2 : g.getD i 0 = e.gen := congrArg Entity.gen he
    rw [h1] at h2
    simp only at hgen hid hwf
    omega
  | nil =>
    have hlt : n + 1 < u32 := hc rfl
    simp only at hwf hid hgen
    have hpc2 : (poolCreate ⟨n, g, []⟩).2 =
        (⟨(n + 1) % u32, g ++ [0], []⟩ : EntityPool) := rfl
    have hpc1 : (poolCreate ⟨n, g, []⟩).1 = Entity.mk n 0 := rfl
    constructor
    · rw [hpc2]
      refine ⟨?_, ?_, ?_⟩
      · show (n + 1) % u32 = (g ++ [0]).length
        rw [Nat.mod_eq_of_lt hlt, List.length_append, List.length_cons,
          List.length_nil]
        omega
      · show e.id < (g ++ [0]).length
        rw [List.length_append]
        omega
      · show e.gen < (g ++ [0]).getD e.id 0
        rw [List.getD_append _ _ _ _ hid]
        exact hgen
    · rw [hpc1]
      intro he
      have h1 : n = e.id := congrArg Entity.id he
      omega

/-- `recycle` preserves the invariant given its no-overflow side
condition. -/
theorem poolInv_recycle (e e' : Entity) (p : EntityPool)
    (h : PoolInv e p)
    (hc : poolAlive p e' = true → p.generations.getD e'.id 0 + 1 < u32) :
    PoolInv e (poolRecycle p e') := by
  obtain ⟨hwf, hid, hgen⟩ := h
  unfold poolRecycle
  by_cases ha : poolAlive p e' = true
  · rw [if_pos ha]
    have hlt := hc ha
    refine ⟨?_, ?_, ?_⟩
    · show p.nextId = (p.generations.set e'.id _).length
      rw [List.length_set]
      exact hwf
    · show e.id < (p.generations.set e'.id _).length
      rw [List.length_set]
      exact hid
    · show e.gen < (p.generations.set e'.id
        ((p.generations.getD e'.id 0 + 1) % u32)).getD e.id 0
      by_cases hsame : e'.id = e.id
      · rw [List.getD_eq_getElem?_getD, hsame,
          List.getElem?_set_self (by omega), Option.getD_some,
          ← hsame, Nat.mod_eq_of_lt hlt, hsame]
        omega
      · rw [List.getD_eq_getElem?_getD, List.getElem?_set_ne hsame,
          ← List.getD_eq_getElem?_getD]
        exact hgen
  · rw [if_neg ha]
    exact ⟨hwf, hid, hgen⟩

/-- Under the invariant, `e` is not alive. -/
theorem poolInv_alive_false (e : Entity) (p : EntityPool)
    (h : PoolInv e p) : poolAlive p e = false := by
  obtain ⟨_, hid, hgen⟩ := h
  unfold poolAlive
  rw [if_pos hid]
  simp only [beq_eq_false_iff_ne]
  omega

/-- The invariant survives any no-overflow run, and `e` is never among
the handles the run's creates return. -/
theorem poolInv_run (ops : List PoolOp) :
    ∀ (p : EntityPool) (e : Entity), PoolInv e p →
      noOverflowRun p ops = true →
      PoolInv e (runOps p ops).1 ∧ e ∉ (runOps p ops).2 := by
  induction ops with
  | nil => intro p e h _; exact ⟨h, List.not_mem_nil e⟩
  | cons op rest ih =>
    intro p e h hrun
    cases op with
    | create =>
      simp only [noOverflowRun, Bool.and_eq_true] at hrun
      have hc : p.freedIds = [] → p.nextId + 1 < u32 := by
        intro hf
        rcases Bool.or_eq_true_iff.mp hrun.1 with h1 | h1
        · rw [hf] at h1
          simp at h1
        · exact of_decide_eq_true h1
      obtain ⟨hinv, hne⟩ := poolInv_create e p h hc
      have hrest := ih (poolCreate p).2 e hinv hrun.2
      refine ⟨hrest.1, ?_⟩
      show e ∉ (poolCreate p).1 :: (runOps (poolCreate p).2 rest).2
      intro hmem
      rcases List.mem_cons.mp hmem with h1 | h1
      · exact hne h1.symm
      · exact hrest.2 h1
    | recycle e' =>
      simp only [noOverflowRun, Bool.and_eq_true] at hrun
      have hc : poolAlive p e' = true →
          p.generations.getD e'.id 0 + 1 < u32 := by
        intro ha
        rcases Bool.or_eq_true_iff.mp hrun.1 with h1 | h1
        · rw [ha] at h1
          simp at h1
        · exact of_decide_eq_true h1
      exact ih (poolRecycle p e') e (poolInv_recycle e e' p h hc) hrun.2

/-- Claim C9 (amended): for a well-formed pool, a handle passed to a
successful `recycle` is never alive again and is never returned by any
later `create`, provided no generation counter overflows *and* no
fresh `create` wraps the 32-bit `next_id_` counter along the run. -/
theorem c9_recycled_never_returned (p : EntityPool) (e : Entity)
    (ops : List PoolOp)
    (hwf : p.nextId = p.generations.length)
    (halive : poolAlive p e = true)
    (hgen : p.generations.getD e.id 0 + 1 < u32)
    (hrun : noOverflowRun (poolRecycle p e) ops = true) :
    poolAlive (runOps (poolRecycle p e) ops).1 e = false ∧
    e ∉ (runOps (poolRecycle p e) ops).2 := by
  have hid : e.id < p.generations.length := by
    unfold poolAlive at halive
    by_cases hlt : e.id < p.generations.length
    · exact hlt
    · rw [if_neg hlt] at halive
      exact absurd halive (by simp)
  have hval : p.generations.getD e.id 0 = e.gen := by
    unfold poolAlive at halive
    rw [if_pos hid] at halive
    simpa using halive
  have hg2 : e.gen + 1 < u32 := by
    rw [← hval]
    exact hgen
  have hinv : PoolInv e (poolRecycle p e) := by
    unfold poolRecycle
    rw [if_pos halive]
    refine ⟨?_, ?_, ?_⟩
    · show p.nextId = (p.generations.set e.id _).length
      rw [List.length_set]
      exact hwf
    · show e.id < (p.generations.set e.id _).length
      rw [List.length_set]
      exact hid
    · show e.gen < (p.generations.set e.id
        ((p.generations.getD e.id 0 + 1) % u32)).getD e.id 0
      rw [List.getD_eq_getElem?_getD, List.getElem?_set_self hid,
        Option.getD_some, hval, Nat.mod_eq_of_lt hg2]
      omega
  obtain ⟨hinv2, hmem⟩ := poolInv_run ops (poolRecycle p e) e hinv hrun
  exact ⟨poolInv_alive_false e _ hinv2, hmem⟩

/-- Witness for C9 (amended) at a one-entity pool followed by two
creates. -/
theorem c9_recycled_never_returned_witness :
    ((⟨1, [0], []⟩ : EntityPool).nextId =
        (⟨1, [0], []⟩ : EntityPool).generations.length ∧
      poolAlive ⟨1, [0], []⟩ ⟨0, 0⟩ = true ∧
      (⟨1, [0], []⟩ : EntityPool).generations.getD 0 0 + 1 < u32 ∧
      noOverflowRun (poolRecycle ⟨1, [0], []⟩ ⟨0, 0⟩)
        [PoolOp.create, PoolOp.create] = true) ∧
    (poolAlive (runOps (poolRecycle ⟨1, [0], []⟩ ⟨0, 0⟩)
        [PoolOp.create, PoolOp.create]).1 ⟨0, 0⟩ = false ∧
      (⟨0, 0⟩ : Entity) ∉ (runOps (poolRecycle ⟨1, [0], []⟩ ⟨0, 0⟩)
        [PoolOp.create, PoolOp.create]).2) :=
  ⟨⟨by decide, by decide, by decide, by decide⟩,
    c9_recycled_never_returned ⟨1, [0], []⟩ ⟨0, 0⟩
      [PoolOp.create, PoolOp.create]
      (by decide) (by decide) (by decide) (by decide)⟩

end Ecs
